import Mathlib

/-!
Shallow embedding of the linProj IPC system (server worker functions,
client library submission/poll paths, and the shared-memory slot state
machine) together with proofs about the spec's claims.

Sources embedded here:
* ipc_defs.h        — protocol constants, enums and shared-memory layout
* libipc.cpp        — find_free_slot, validate_string, submit_request,
                      blocking_math wait loop, ipc_get_result
* server.cpp        — server init (zeroed region, next_request_id = 1),
                      dispatcher claim loop, process_math, process_string

Machine integers are modelled as Int/Nat with explicit two's-complement
wrap where 32-bit overflow matters.  C strings (NUL-terminated char
arrays with no embedded NUL) are modelled as `List Char`.  OS-level
concerns (semaphores, mmap, reconnection after a generation change) are
modelled by explicit event streams or by restricting to the
single-generation happy path, which is the scope of the claims below.
-/

namespace LinProj

/-- Protocol constant from ipc_defs.h: slot count N. -/
def IPC_MAX_SLOTS : Nat := 16

/-- Protocol constant from ipc_defs.h: maximum input string length L. -/
def IPC_MAX_STRING_LEN : Nat := 16

/-- Protocol constant from ipc_defs.h: maximum result string length R (2L + NUL). -/
def IPC_MAX_RESULT_LEN : Nat := 33

/-- Two's-complement wrap of an integer into the int32_t range
[-2^31, 2^31).  Used wherever the C code performs int32 arithmetic that
may overflow. -/
def toInt32 (x : Int) : Int := (x + 2147483648) % 4294967296 - 2147483648

/-- Command codes, ipc_cmd_t from ipc_defs.h (ADD = 0 is the zero value). -/
inductive ipc_cmd_t
  | add
  | sub
  | mul
  | div
  | concat
  | search
deriving DecidableEq, Repr

/-- Status codes, ipc_status_t from ipc_defs.h (OK = 0 is the zero value). -/
inductive ipc_status_t
  | ok
  | divByZero
  | notFound
  | strTooLong
  | invalidInput
  | internalError
deriving DecidableEq, Repr

/-- Slot states, ipc_slot_state_t from ipc_defs.h (FREE = 0 is the zero value). -/
inductive ipc_slot_state_t
  | free
  | requestPending
  | processing
  | responseReady
deriving DecidableEq, Repr

/-- MathArgs from ipc_defs.h: two int32 operands. -/
structure MathArgs where
  a : Int
  b : Int
deriving DecidableEq, Repr

/-- StringArgs from ipc_defs.h: two bounded C strings (s1, s2 are the
characters before the NUL terminator; the char[17] fields can hold at
most 16 characters). -/
structure StringArgs where
  s1 : List Char
  s2 : List Char
deriving DecidableEq, Repr

/-- RequestPayload union from ipc_defs.h.  The C type is a union; each
request is only ever written and read through the member matching its
command, so a tagged sum is a faithful model of the reachable values. -/
inductive RequestPayload
  | math (m : MathArgs)
  | str (s : StringArgs)
deriving DecidableEq, Repr

/-- ResponsePayload union from ipc_defs.h.  `strResult s` stands for the
NUL-terminated C string whose characters are `s`; the all-zero union
value (after memset) reads as `strResult []`, `mathResult 0`, or
`position 0` depending on the member used. -/
inductive ResponsePayload
  | mathResult (v : Int)
  | strResult (s : List Char)
  | position (p : Int)
deriving DecidableEq, Repr

/-- Union read of ResponsePayload through the math_result member, as done
by blocking_math's `*result = slot->response.math_result`.  For slots
written by the math worker this is the mathResult field; the other
constructors stand for reinterpreted bytes of the position field or the
leading bytes of str_result (unreachable for math slots). -/
def ResponsePayload.math_result : ResponsePayload → Int
  | .mathResult v => v
  | .strResult _ => 0
  | .position p => p

/-- MessageSlot from ipc_defs.h. -/
structure MessageSlot where
  state : ipc_slot_state_t
  request_id : Nat
  client_pid : Int
  command : ipc_cmd_t
  request : RequestPayload
  response : ResponsePayload
  status : ipc_status_t
deriving DecidableEq, Repr

/-- SharedMemoryLayout from ipc_defs.h: header (generation, next id) plus
the slot array. -/
structure SharedMemoryLayout where
  server_generation : Nat
  next_request_id : Nat
  slots : List MessageSlot
deriving DecidableEq, Repr

/-- An all-zero MessageSlot, the value of each slot after the server's
memset of the region (state FREE = 0, request_id 0, command ADD = 0,
status OK = 0, zeroed payload unions). -/
def zero_slot : MessageSlot :=
  { state := .free
    request_id := 0
    client_pid := 0
    command := .add
    request := .math ⟨0, 0⟩
    response := .mathResult 0
    status := .ok }

/-- Shared region as initialized by server main: memset to zero, then
server_generation := G and next_request_id := 1. -/
def init_state (g : Nat) : SharedMemoryLayout :=
  { server_generation := g
    next_request_id := 1
    slots := List.replicate IPC_MAX_SLOTS zero_slot }

/-!
## Math worker (process_math, server.cpp)

The compute section of process_math: result starts at 0 and status at
OK; the switch fills them in.  int32 arithmetic is modelled with
explicit two's-complement wrap.  C integer division truncates toward
zero (Int.tdiv); its single overflowing case INT_MIN / -1 is undefined
behaviour in C and is modelled, like the other operators, by the wrap.
-/

/-- The compute section of process_math from server.cpp: given the
command and the two int32 operands copied out of the slot, produce the
(math_result, status) pair that the worker writes back. -/
def process_math (cmd : ipc_cmd_t) (a b : Int) : Int × ipc_status_t :=
  match cmd with
  | .add => (toInt32 (a + b), .ok)
  | .sub => (toInt32 (a - b), .ok)
  | .mul => (toInt32 (a * b), .ok)
  | .div => if b = 0 then (0, .divByZero) else (toInt32 (Int.tdiv a b), .ok)
  | _ => (0, .invalidInput)

/-!
## String worker (process_string, server.cpp)

process_string copies the slot's two strings into local char[17]
buffers via strncpy with a forced terminator at index 16 — i.e. it sees
at most the first 16 characters — then validates lengths, and runs
CONCAT or SEARCH.  The response union is memset to zero first, so paths
that do not write it leave the all-zero value (`strResult []`).
-/

/-- Position of the first occurrence of the needle `n` in the haystack,
the strstr(s1, s2) call of process_string: the least index at which `n`
is a prefix of the remaining haystack, or none.  (Like strstr, an empty
needle matches at position 0.) -/
def strstr_pos (n : List Char) : List Char → Option Nat
  | [] => if n.isPrefixOf ([] : List Char) then some 0 else none
  | c :: t =>
    if n.isPrefixOf (c :: t) then some 0
    else (strstr_pos n t).map (· + 1)

/-- The strncpy copy-in of a slot string into the worker's local
char[17] buffer with s[16] forced to NUL: the worker sees at most the
first 16 characters. -/
def copy_str_arg (s : List Char) : List Char := s.take IPC_MAX_STRING_LEN

/-- The compute section of process_string from server.cpp: given the
command and the two slot strings, produce the (response, status) pair
the worker writes back.  Mirrors the source: copy-in truncation, length
validation (STR_TOO_LONG on violation), then the CONCAT length guard
and snprintf concatenation, or the strstr SEARCH. -/
def process_string (cmd : ipc_cmd_t) (s1_raw s2_raw : List Char) :
    ResponsePayload × ipc_status_t :=
  let s1 := copy_str_arg s1_raw
  let s2 := copy_str_arg s2_raw
  let len1 := s1.length
  let len2 := s2.length
  if len1 < 1 ∨ len1 > IPC_MAX_STRING_LEN ∨ len2 < 1 ∨ len2 > IPC_MAX_STRING_LEN then
    (.strResult [], .strTooLong)
  else if cmd = .concat then
    if len1 + len2 > IPC_MAX_RESULT_LEN - 1 then
      (.strResult [], .strTooLong)
    else
      (.strResult (s1 ++ s2), .ok)
  else if cmd = .search then
    match strstr_pos s2 s1 with
    | some i => (.position (Int.ofNat i), .ok)
    | none => (.position (-1), .notFound)
  else
    (.strResult [], .invalidInput)

/-!
## Client library (libipc.cpp)
-/

/-- validate_string from libipc.cpp: 0 iff the string length is within
[1, IPC_MAX_STRING_LEN], else -1.  (The C null-pointer check has no
counterpart here: the model has no null strings.) -/
def validate_string (s : List Char) : Int :=
  if s.length < 1 ∨ s.length > IPC_MAX_STRING_LEN then -1 else 0

/-- find_free_slot from libipc.cpp: scan the slot array in ascending
index order and return the first index whose state is FREE (the C code
returns -1, here none, when no slot is free). -/
def find_free_slot : List MessageSlot → Option Nat
  | [] => none
  | s :: rest =>
    if s.state = .free then some 0 else (find_free_slot rest).map (· + 1)

/-- Replacement of the slot at an index (writes through the mmap'd slot
array); out-of-range indices leave the array unchanged. -/
def update_slot : List MessageSlot → Nat → (MessageSlot → MessageSlot) → List MessageSlot
  | [], _, _ => []
  | s :: rest, 0, f => f s :: rest
  | s :: rest, n + 1, f => s :: update_slot rest n f

/-- Result of submit_request: either the chosen slot index and assigned
request id (return 0), or the no-free-slots failure (return -1). -/
inductive SubmitResult
  | ok (slot_idx : Nat) (request_id : Nat)
  | noFreeSlots
deriving DecidableEq, Repr

/-- submit_request from libipc.cpp, in the single-generation happy path
(ensure_fresh_connection and the generation re-check are identities when
the server has not restarted, which is the scope of the claims): find
the first FREE slot; if none, return -1 leaving the region untouched;
otherwise write request_id := next_request_id++, client_pid, command,
payload, and transition the slot to REQUEST_PENDING. -/
def submit_request (st : SharedMemoryLayout) (pid : Int) (cmd : ipc_cmd_t)
    (payload : RequestPayload) : SubmitResult × SharedMemoryLayout :=
  match find_free_slot st.slots with
  | none => (.noFreeSlots, st)
  | some idx =>
    let id := st.next_request_id
    let slots' := update_slot st.slots idx fun s =>
      { s with
        request_id := id
        client_pid := pid
        command := cmd
        request := payload
        state := .requestPending }
    (.ok idx id, { st with next_request_id := id + 1, slots := slots' })

/-- Result of ipc_get_result: READY with the response and status (return
0), NOT_READY (return IPC_NOT_READY = 1), or not-found (return -1). -/
inductive PollResult
  | ready (resp : ResponsePayload) (status : ipc_status_t)
  | notReady
  | notFound
deriving DecidableEq, Repr

/-- The slot scan of ipc_get_result from libipc.cpp: walk the slot array
in ascending order looking for request_id == id; on the first match,
consume the response if the slot is RESPONSE_READY (transitioning it to
FREE) else report NOT_READY; if no slot matches, report not-found. -/
def poll_slots (id : Nat) : List MessageSlot → PollResult × List MessageSlot
  | [] => (.notFound, [])
  | s :: rest =>
    if s.request_id = id then
      if s.state = .responseReady then
        (.ready s.response s.status, { s with state := .free } :: rest)
      else
        (.notReady, s :: rest)
    else
      ((poll_slots id rest).1, s :: (poll_slots id rest).2)

/-- ipc_get_result from libipc.cpp in the single-generation happy path
(connection freshness and the generation re-check are identities while
the server has not restarted). -/
def ipc_get_result (st : SharedMemoryLayout) (id : Nat) :
    PollResult × SharedMemoryLayout :=
  let r := poll_slots id st.slots
  (r.1, { st with slots := r.2 })

/-!
## Server dispatcher and worker application (server.cpp)

The dispatcher loop claims every REQUEST_PENDING slot (transitioning it
to PROCESSING under the mutex) and hands its index to the matching
pool; a pool worker later runs process_math / process_string on the
slot and publishes RESPONSE_READY.  At the slot-state level, a
dispatcher wake maps every pending slot to PROCESSING, and a worker
step completes one previously claimed (PROCESSING) slot.
-/

/-- Union read of RequestPayload through the math member, as done by
process_math's copy-out of request.math.a / request.math.b.  The str
constructor stands for reinterpreted string bytes — unreachable for
slots submitted through the math entry points, which always store a
math payload. -/
def RequestPayload.mathView : RequestPayload → MathArgs
  | .math m => m
  | .str _ => ⟨0, 0⟩

/-- Union read of RequestPayload through the str member, as done by
process_string's copy-out of request.str.s1 / request.str.s2. -/
def RequestPayload.strView : RequestPayload → StringArgs
  | .str s => s
  | .math _ => ⟨[], []⟩

/-- One dispatcher wake (server.cpp dispatcher loop): every slot found
in REQUEST_PENDING is transitioned to PROCESSING; other slots are left
alone. -/
def dispatch_slots (slots : List MessageSlot) : List MessageSlot :=
  slots.map fun s =>
    if s.state = .requestPending then { s with state := .processing } else s

/-- The write-back phase of a worker on one slot: run the compute
function matching the slot's command on the copied-out payload and
publish response, status, and the RESPONSE_READY state. -/
def work_slot_content (s : MessageSlot) : MessageSlot :=
  match s.command with
  | .add | .sub | .mul | .div =>
    let m := s.request.mathView
    let r := process_math s.command m.a m.b
    { s with response := .mathResult r.1, status := r.2, state := .responseReady }
  | .concat | .search =>
    let a := s.request.strView
    let r := process_string s.command a.s1 a.s2
    { s with response := r.1, status := r.2, state := .responseReady }

/-- A pool worker completing slot i.  The pools only ever receive
indices of slots the dispatcher just claimed, so a worker step applies
to a PROCESSING slot; an index whose slot is not PROCESSING corresponds
to no queued work and changes nothing. -/
def work_slot (st : SharedMemoryLayout) (i : Nat) : SharedMemoryLayout :=
  { st with
    slots := update_slot st.slots i fun s =>
      if s.state = .processing then work_slot_content s else s }

/-!
## Single-generation trace semantics

The cross-process interleavings the claims quantify over: every slot
mutation happens under the shared mutex, so a run of the system within
one server generation is a sequence of atomic steps — client
submissions, dispatcher wakes, worker completions, and client polls.
-/

/-- One atomic (mutex-protected) action on the shared region. -/
inductive Op
  | submit (pid : Int) (cmd : ipc_cmd_t) (payload : RequestPayload)
  | dispatch
  | work (i : Nat)
  | poll (id : Nat)

/-- State transition of one atomic action. -/
def step (st : SharedMemoryLayout) : Op → SharedMemoryLayout
  | .submit pid cmd p => (submit_request st pid cmd p).2
  | .dispatch => { st with slots := dispatch_slots st.slots }
  | .work i => work_slot st i
  | .poll id => (ipc_get_result st id).2

/-- Run a sequence of atomic actions. -/
def run (st : SharedMemoryLayout) : List Op → SharedMemoryLayout
  | [] => st
  | op :: ops => run (step st op) ops

/-- The request id assigned by an action, if the action is a submission
that finds a free slot (submit_request stores next_request_id and
increments it). -/
def submit_assigned_id (st : SharedMemoryLayout) : Op → Option Nat
  | .submit _ _ _ =>
    match find_free_slot st.slots with
    | some _ => some st.next_request_id
    | none => none
  | _ => none

/-- The request ids assigned over a run, in submission order. -/
def assigned_ids (st : SharedMemoryLayout) : List Op → List Nat
  | [] => []
  | op :: ops => (submit_assigned_id st op).toList ++ assigned_ids (step st op) ops

/-!
## Blocking wait loop (blocking_math, libipc.cpp)

A sync caller submits, then loops up to kMaxSlotWaitTimeoutRetries = 16
times waiting on its slot's semaphore with a 1-second deadline.  What
each iteration observes is up to the OS scheduler and the server: the
semaphore wait either succeeds (and, after taking the mutex, the caller
sees some slot contents — possibly a stale wake from a previous cycle)
or times out (after which ensure_fresh_connection may report a restart)
or fails.  This environment is modelled as a stream of per-iteration
events.
-/

/-- What one iteration of the blocking_math wait loop observes:
a semaphore wake together with the result of
lock_shared_mutex_with_recovery and the slot contents then read under
the mutex; a timeout together with the ensure_fresh_connection result;
or another semaphore wait error. -/
inductive WaitEvent
  | wake (lockRc : Int) (slot : MessageSlot)
  | timeout (ensureRc : Int)
  | waitErr
deriving DecidableEq, Repr

/-- kMaxSlotWaitTimeoutRetries from blocking_math. -/
def kMaxSlotWaitTimeoutRetries : Nat := 16

/-- reconnect_after_server_restart from libipc.cpp: cleanup and re-init;
IPC_ERR_SERVER_RESTARTED (-2) if ipc_init succeeds, else -1. -/
def reconnect_after_server_restart (init_ok : Bool) : Int :=
  if init_ok then -2 else -1

/-- The wait loop of blocking_math from libipc.cpp, iterating from event
index k with the given remaining budget (budget = 16 - retries).  On a
wake: propagate a mutex-recovery failure; consume the response only if
the observed slot holds the expected request id in RESPONSE_READY
(returning 0 for status OK, -1 otherwise, and writing *result from
response.math_result); otherwise the wake was stale — retry.  On a
timeout: propagate a nonzero ensure_fresh_connection result, else
retry.  On any other wait error return -1.  When the budget is
exhausted, force a reconnect (returning RESTARTED = -2 when ipc_init
succeeds). -/
def blocking_wait_from (expected_id : Nat) (init_ok : Bool)
    (ev : Nat → WaitEvent) : Nat → Nat → Int × Option Int
  | 0, _ => (reconnect_after_server_restart init_ok, none)
  | budget + 1, k =>
    match ev k with
    | .wake lockRc slot =>
      if lockRc ≠ 0 then (lockRc, none)
      else if slot.request_id = expected_id ∧ slot.state = .responseReady then
        ((if slot.status = .ok then 0 else -1), some slot.response.math_result)
      else
        blocking_wait_from expected_id init_ok ev budget (k + 1)
    | .timeout ensureRc =>
      if ensureRc ≠ 0 then (ensureRc, none)
      else blocking_wait_from expected_id init_ok ev budget (k + 1)
    | .waitErr => (-1, none)

/-- blocking_math from libipc.cpp (single-generation happy path for the
submission): submit the math request; on failure return the submission
result; otherwise run the 16-iteration wait loop for the assigned
request id against the observed event stream.  The returned pair is
(return code, value written to *result if any). -/
def blocking_math (st : SharedMemoryLayout) (pid : Int) (cmd : ipc_cmd_t)
    (a b : Int) (init_ok : Bool) (ev : Nat → WaitEvent) : Int × Option Int :=
  match submit_request st pid cmd (.math ⟨a, b⟩) with
  | (.noFreeSlots, _) => (-1, none)
  | (.ok _ id, _) => blocking_wait_from id init_ok ev kMaxSlotWaitTimeoutRetries 0

/-- An iteration observation that does not deliver the expected
request's response and does not abort the loop: a clean stale wake (the
mutex was acquired but the slot does not hold the expected request in
RESPONSE_READY) or a clean timeout.  A loop all of whose 16 iterations
are of this shape exhausts its budget. -/
def WaitEvent.stale (expected_id : Nat) : WaitEvent → Prop
  | .wake lockRc slot =>
    lockRc = 0 ∧ ¬(slot.request_id = expected_id ∧ slot.state = .responseReady)
  | .timeout ensureRc => ensureRc = 0
  | .waitErr => False

instance (expected_id : Nat) (e : WaitEvent) : Decidable (e.stale expected_id) := by
  cases e <;> simp [WaitEvent.stale] <;> infer_instance

/-- A concrete single-request run used to exercise the poll round trip:
from a fresh generation-7 region, one client (pid 42) submits MUL(3,4)
asynchronously (assigned request id 1, slot 0), the dispatcher claims
the slot, and a math worker completes it. -/
def demo_state : SharedMemoryLayout :=
  run (init_state 7) [.submit 42 .mul (.math ⟨3, 4⟩), .dispatch, .work 0]

/-- All slot request_ids are below the header's next_request_id.  Holds
in every reachable single-generation state (ids are handed out from
next_request_id, which then increments). -/
def slots_wf (st : SharedMemoryLayout) : Prop :=
  ∀ s ∈ st.slots, s.request_id < st.next_request_id

/-- Request id has been consumed: it is an already-assigned id and every
slot still carrying it is FREE.  This is the state of an id right after
the successful poll that returned its response. -/
def id_consumed (st : SharedMemoryLayout) (id : Nat) : Prop :=
  id < st.next_request_id ∧ ∀ s ∈ st.slots, s.request_id = id → s.state = .free

/-- At most one slot of the array carries the given request id (request
ids are assigned to one slot each within a generation). -/
def id_unique (slots : List MessageSlot) (id : Nat) : Prop :=
  slots.Pairwise fun a b => ¬(a.request_id = id ∧ b.request_id = id)

instance slots_wf_decidable (st : SharedMemoryLayout) : Decidable (slots_wf st) := by
  unfold slots_wf
  infer_instance

instance id_consumed_decidable (st : SharedMemoryLayout) (id : Nat) :
    Decidable (id_consumed st id) := by
  unfold id_consumed
  infer_instance

instance id_unique_decidable (l : List MessageSlot) (id : Nat) :
    Decidable (id_unique l id) := by
  unfold id_unique
  infer_instance

/-!
# Theorems

Helper lemmas first (shared across claims), then one theorem per claim,
each with its witness or counterexample where required.
-/

/-- toInt32 always lands in the int32 range. -/
theorem toInt32_mem_range (x : Int) :
    -2147483648 ≤ toInt32 x ∧ toInt32 x < 2147483648 := by
  unfold toInt32
  omega

/-- toInt32 is the identity on the int32 range. -/
theorem toInt32_eq_self {x : Int} (h1 : -2147483648 ≤ x) (h2 : x < 2147483648) :
    toInt32 x = x := by
  unfold toInt32
  omega

/-- toInt32 agrees with its argument modulo 2^32 (two's-complement
congruence). -/
theorem toInt32_congruent (x : Int) : (toInt32 x - x) % 4294967296 = 0 := by
  unfold toInt32
  omega

/-- Truncated int32 division stays in the int32 range for in-range
operands, except at the single overflowing pair (-2^31, -1). -/
theorem tdiv_mem_range {a b : Int}
    (ha1 : -2147483648 ≤ a) (ha2 : a < 2147483648) (hb : b ≠ 0)
    (hx : ¬(a = -2147483648 ∧ b = -1)) :
    -2147483648 ≤ Int.tdiv a b ∧ Int.tdiv a b < 2147483648 := by
  have habs : (Int.tdiv a b).natAbs = a.natAbs / b.natAbs := Int.natAbs_tdiv a b
  have hle : (Int.tdiv a b).natAbs ≤ a.natAbs := habs ▸ Nat.div_le_self _ _
  refine ⟨by omega, ?_⟩
  by_contra hcon
  have h1 : Int.tdiv a b = 2147483648 := by omega
  have h2 : a.natAbs / b.natAbs = 2147483648 := by
    rw [h1] at habs
    simpa using habs.symm
  have hbpos : 1 ≤ b.natAbs := by omega
  have hA : a.natAbs ≤ 2147483648 := by omega
  have h3 : 2147483648 * b.natAbs ≤ a.natAbs :=
    (Nat.le_div_iff_mul_le hbpos).1 (le_of_eq h2.symm)
  have hb1 : b.natAbs = 1 := by omega
  have ha' : a = -2147483648 := by omega
  have hbcases : b = 1 ∨ b = -1 := by omega
  rcases hbcases with hb1' | hbm1
  · rw [ha', hb1'] at h1
    exact absurd h1 (by decide)
  · exact hx ⟨ha', hbm1⟩

/-- C10: For every DIV request with divisor 0, the math worker writes
math_result = 0 (the initial value of its result variable) together
with status DIV_BY_ZERO — the response's numeric field is
deterministically 0, not leftover bytes. -/
theorem claim_C10_div_by_zero_result (a : Int) :
    process_math .div a 0 = (0, .divByZero) := by
  simp [process_math]

/-- C8: ADD, SUB and MUL on 32-bit signed operands produce the
two's-complement wrap of the exact sum, difference and product with
status OK; the wrapped value is in the int32 range and congruent to the
exact value modulo 2^32, and in the no-overflow case it equals the
exact integer result. -/
theorem claim_C8_add_sub_mul (a b : Int) :
    (process_math .add a b = (toInt32 (a + b), .ok) ∧
      (toInt32 (a + b) - (a + b)) % 4294967296 = 0 ∧
      (-2147483648 ≤ a + b → a + b < 2147483648 →
        process_math .add a b = (a + b, .ok))) ∧
    (process_math .sub a b = (toInt32 (a - b), .ok) ∧
      (toInt32 (a - b) - (a - b)) % 4294967296 = 0 ∧
      (-2147483648 ≤ a - b → a - b < 2147483648 →
        process_math .sub a b = (a - b, .ok))) ∧
    (process_math .mul a b = (toInt32 (a * b), .ok) ∧
      (toInt32 (a * b) - (a * b)) % 4294967296 = 0 ∧
      (-2147483648 ≤ a * b → a * b < 2147483648 →
        process_math .mul a b = (a * b, .ok))) := by
  refine ⟨⟨rfl, toInt32_congruent _, fun h1 h2 => ?_⟩,
    ⟨rfl, toInt32_congruent _, fun h1 h2 => ?_⟩,
    ⟨rfl, toInt32_congruent _, fun h1 h2 => ?_⟩⟩ <;>
    simp [process_math, toInt32_eq_self h1 h2]

/-- Witness for C8 at ADD(2, 3): the no-overflow clause yields the
exact sum 5. -/
theorem claim_C8_witness : process_math .add 2 3 = (2 + 3, .ok) :=
  (claim_C8_add_sub_mul 2 3).1.2.2 (by decide) (by decide)

/-- C5 fails as stated at the single pair (-2^31, -1): the truncated
integer quotient is 2^31, which is not representable in int32 (C
signed-overflow undefined behaviour; under the two's-complement wrap
the worker stores -2^31 with status OK), so the response does not equal
the truncated quotient there. -/
theorem claim_C5_counterexample :
    process_math .div (-2147483648) (-1) = (-2147483648, .ok) ∧
    Int.tdiv (-2147483648) (-1) = 2147483648 ∧
    ((-2147483648 : Int) ≠ 2147483648) := by
  refine ⟨?_, by decide, by decide⟩
  simp [process_math, toInt32]

/-- C5 (amended): for int32 operands, DIV with divisor 0 yields status
DIV_BY_ZERO (and result 0); DIV with nonzero divisor yields the
truncated integer quotient with status OK for every pair except
(-2^31, -1), where the quotient overflows int32. -/
theorem claim_C5_div (a b : Int)
    (ha1 : -2147483648 ≤ a) (ha2 : a < 2147483648)
    (_hb1 : -2147483648 ≤ b) (_hb2 : b < 2147483648) :
    (b = 0 → process_math .div a b = (0, .divByZero)) ∧
    (b ≠ 0 → ¬(a = -2147483648 ∧ b = -1) →
      process_math .div a b = (Int.tdiv a b, .ok)) := by
  constructor
  · intro h0
    simp [process_math, h0]
  · intro hb hx
    obtain ⟨hq1, hq2⟩ := tdiv_mem_range ha1 ha2 hb hx
    simp [process_math, hb, toInt32_eq_self hq1 hq2]

/-- Witness for C5 at DIV(10, 3): quotient 3, status OK. -/
theorem claim_C5_witness : process_math .div 10 3 = (Int.tdiv 10 3, .ok) :=
  (claim_C5_div 10 3 (by decide) (by decide) (by decide) (by decide)).2
    (by decide) (by decide)

/-!
## String worker lemmas
-/

/-- With both operand lengths in [1, 16], process_string CONCAT returns
the byte-exact concatenation with status OK (shared by C6 and C9). -/
theorem process_string_concat_ok (s1 s2 : List Char)
    (h1a : 1 ≤ s1.length) (h1b : s1.length ≤ 16)
    (h2a : 1 ≤ s2.length) (h2b : s2.length ≤ 16) :
    process_string .concat s1 s2 = (.strResult (s1 ++ s2), .ok) := by
  have e1 : copy_str_arg s1 = s1 := List.take_of_length_le h1b
  have e2 : copy_str_arg s2 = s2 := List.take_of_length_le h2b
  simp only [process_string, e1, e2, IPC_MAX_STRING_LEN, IPC_MAX_RESULT_LEN]
  rw [if_neg (by omega), if_pos trivial, if_neg (by omega)]

/-- A found needle position is a genuine occurrence: the needle is a
prefix of the haystack dropped at the returned index. -/
theorem strstr_pos_isPrefixOf {n : List Char} :
    ∀ {h : List Char} {i : Nat}, strstr_pos n h = some i →
      n.isPrefixOf (h.drop i) = true := by
  intro h
  induction h with
  | nil =>
    intro i hi
    unfold strstr_pos at hi
    by_cases hp : n.isPrefixOf ([] : List Char) = true
    · rw [if_pos hp] at hi
      obtain rfl : 0 = i := Option.some.inj hi
      simpa using hp
    · rw [if_neg hp] at hi
      exact absurd hi (by simp)
  | cons c t ih =>
    intro i hi
    unfold strstr_pos at hi
    by_cases hp : n.isPrefixOf (c :: t) = true
    · rw [if_pos hp] at hi
      obtain rfl : 0 = i := Option.some.inj hi
      simpa using hp
    · rw [if_neg hp] at hi
      obtain ⟨k, hk, rfl⟩ := Option.map_eq_some'.1 hi
      simpa using ih hk

/-- A found needle position is the least occurrence: no smaller index
is an occurrence. -/
theorem strstr_pos_least {n : List Char} :
    ∀ {h : List Char} {i : Nat}, strstr_pos n h = some i →
      ∀ j < i, ¬(n.isPrefixOf (h.drop j) = true) := by
  intro h
  induction h with
  | nil =>
    intro i hi j hj
    unfold strstr_pos at hi
    by_cases hp : n.isPrefixOf ([] : List Char) = true
    · rw [if_pos hp] at hi
      obtain rfl : 0 = i := Option.some.inj hi
      exact absurd hj (by omega)
    · rw [if_neg hp] at hi
      exact absurd hi (by simp)
  | cons c t ih =>
    intro i hi j hj
    unfold strstr_pos at hi
    by_cases hp : n.isPrefixOf (c :: t) = true
    · rw [if_pos hp] at hi
      obtain rfl : 0 = i := Option.some.inj hi
      exact absurd hj (by omega)
    · rw [if_neg hp] at hi
      obtain ⟨k, hk, rfl⟩ := Option.map_eq_some'.1 hi
      cases j with
      | zero => simpa using hp
      | succ m =>
        have hm : m < k := by omega
        simpa using ih hk m hm

/-- When strstr finds nothing, there is no occurrence at any index. -/
theorem strstr_pos_none {n : List Char} :
    ∀ {h : List Char}, strstr_pos n h = none →
      ∀ j, ¬(n.isPrefixOf (h.drop j) = true) := by
  intro h
  induction h with
  | nil =>
    intro hi j
    unfold strstr_pos at hi
    by_cases hp : n.isPrefixOf ([] : List Char) = true
    · rw [if_pos hp] at hi
      exact absurd hi (by simp)
    · rw [if_neg hp] at hi
      simpa using hp
  | cons c t ih =>
    intro hi j
    unfold strstr_pos at hi
    by_cases hp : n.isPrefixOf (c :: t) = true
    · rw [if_pos hp] at hi
      exact absurd hi (by simp)
    · rw [if_neg hp] at hi
      have ht : strstr_pos n t = none := Option.map_eq_none'.1 hi
      cases j with
      | zero => simpa using hp
      | succ m => simpa using ih ht m

/-- An occurrence at index i means strstr finds some occurrence at an
index at most i. -/
theorem strstr_pos_complete {n : List Char} :
    ∀ {h : List Char} {i : Nat}, n.isPrefixOf (h.drop i) = true →
      ∃ j ≤ i, strstr_pos n h = some j := by
  intro h
  induction h with
  | nil =>
    intro i hocc
    have hp : n.isPrefixOf ([] : List Char) = true := by simpa using hocc
    exact ⟨0, Nat.zero_le _, by unfold strstr_pos; rw [if_pos hp]⟩
  | cons c t ih =>
    intro i hocc
    by_cases hp : n.isPrefixOf (c :: t) = true
    · exact ⟨0, Nat.zero_le _, by unfold strstr_pos; rw [if_pos hp]⟩
    · cases i with
      | zero => exact absurd (by simpa using hocc) hp
      | succ m =>
        obtain ⟨j, hj, hfind⟩ := ih (by simpa using hocc)
        refine ⟨j + 1, by omega, ?_⟩
        unfold strstr_pos
        rw [if_neg hp, hfind]
        rfl

/-- C6: for CONCAT with operand lengths in [1, 16] summing to at most
R - 1 = 32, the response is the byte-exact concatenation of s1 then s2
(NUL-terminated, as every str_result is) with status OK; if the lengths
summed to more than R - 1 the status would be STR_TOO_LONG. -/
theorem claim_C6_concat (s1 s2 : List Char)
    (h1a : 1 ≤ s1.length) (h1b : s1.length ≤ 16)
    (h2a : 1 ≤ s2.length) (h2b : s2.length ≤ 16) :
    (s1.length + s2.length ≤ 32 →
      process_string .concat s1 s2 = (.strResult (s1 ++ s2), .ok)) ∧
    (s1.length + s2.length > 32 →
      (process_string .concat s1 s2).2 = .strTooLong) := by
  constructor
  · intro _
    exact process_string_concat_ok s1 s2 h1a h1b h2a h2b
  · intro hgt
    exact absurd hgt (by omega)

/-- Witness for C6 at CONCAT("hello", "world"): response is
"helloworld" with status OK. -/
theorem claim_C6_witness :
    process_string .concat "hello".data "world".data =
      (.strResult ("hello".data ++ "world".data), .ok) :=
  (claim_C6_concat "hello".data "world".data (by decide) (by decide)
    (by decide) (by decide)).1 (by decide)

/-- C9 (implicit): operands that passed the client-side validation
(validate_string = 0, i.e. length in [1, 16]) always satisfy
len(s1) + len(s2) <= 32 = IPC_MAX_RESULT_LEN - 1, so the server's
CONCAT length-overflow branch is unreachable: such a request never
produces STR_TOO_LONG (its status is OK). -/
theorem claim_C9_no_overflow (s1 s2 : List Char)
    (hv1 : validate_string s1 = 0) (hv2 : validate_string s2 = 0) :
    s1.length + s2.length ≤ IPC_MAX_RESULT_LEN - 1 ∧
    (process_string .concat s1 s2).2 ≠ .strTooLong := by
  have h1 : 1 ≤ s1.length ∧ s1.length ≤ 16 := by
    by_contra hc
    rw [validate_string, if_pos (by simp [IPC_MAX_STRING_LEN]; omega)] at hv1
    exact absurd hv1 (by decide)
  have h2 : 1 ≤ s2.length ∧ s2.length ≤ 16 := by
    by_contra hc
    rw [validate_string, if_pos (by simp [IPC_MAX_STRING_LEN]; omega)] at hv2
    exact absurd hv2 (by decide)
  refine ⟨by simp [IPC_MAX_RESULT_LEN]; omega, ?_⟩
  rw [process_string_concat_ok s1 s2 h1.1 h1.2 h2.1 h2.2]
  simp

/-- Witness for C9 at ("hi", "yo"): validation passes and the status is
not STR_TOO_LONG. -/
theorem claim_C9_witness :
    "hi".data.length + "yo".data.length ≤ IPC_MAX_RESULT_LEN - 1 ∧
    (process_string .concat "hi".data "yo".data).2 ≠ .strTooLong :=
  claim_C9_no_overflow "hi".data "yo".data (by decide) (by decide)

/-- C7: for SEARCH with operand lengths in [1, 16], the response is
(position i, OK) exactly when i is the least 0-indexed occurrence of
the needle in the haystack, and (position -1, NOT_FOUND) exactly when
the needle does not occur. -/
theorem claim_C7_search (h n : List Char)
    (hha : 1 ≤ h.length) (hhb : h.length ≤ 16)
    (hna : 1 ≤ n.length) (hnb : n.length ≤ 16) :
    (∀ i : Nat,
      process_string .search h n = (.position (Int.ofNat i), .ok) ↔
        (n.isPrefixOf (h.drop i) = true ∧
          ∀ j < i, ¬(n.isPrefixOf (h.drop j) = true))) ∧
    (process_string .search h n = (.position (-1), .notFound) ↔
      ∀ j, ¬(n.isPrefixOf (h.drop j) = true)) := by
  have e1 : copy_str_arg h = h := List.take_of_length_le hhb
  have e2 : copy_str_arg n = n := List.take_of_length_le hnb
  have hps : process_string .search h n =
      (match strstr_pos n h with
        | some i => (.position (Int.ofNat i), .ok)
        | none => (.position (-1), .notFound)) := by
    simp only [process_string, e1, e2, IPC_MAX_STRING_LEN, IPC_MAX_RESULT_LEN]
    rw [if_neg (by omega)]
    simp
  rw [hps]
  cases hfind : strstr_pos n h with
  | some p =>
    constructor
    · intro i
      constructor
      · intro hi
        have hip : p = i := by
          have h1 := congrArg Prod.fst hi
          simp only [Prod.fst] at h1
          have h2 : Int.ofNat p = Int.ofNat i := ResponsePayload.position.inj h1
          exact Int.ofNat_inj.1 h2
        subst hip
        exact ⟨strstr_pos_isPrefixOf hfind, strstr_pos_least hfind⟩
      · rintro ⟨hocc, hleast⟩
        obtain ⟨j, hj, hfind'⟩ := strstr_pos_complete hocc
        rw [hfind] at hfind'
        obtain rfl : p = j := Option.some.inj hfind'
        have hpi : p = i := by
          by_contra hne
          have hlt : p < i := by omega
          exact hleast p hlt (strstr_pos_isPrefixOf hfind)
        rw [hpi]
    · constructor
      · intro hcon
        simp at hcon
      · intro hnone
        exact absurd (strstr_pos_isPrefixOf hfind) (hnone p)
  | none =>
    constructor
    · intro i
      constructor
      · intro hcon
        simp at hcon
      · rintro ⟨hocc, _⟩
        exact absurd hocc (strstr_pos_none hfind i)
    · exact ⟨fun _ => strstr_pos_none hfind, fun _ => rfl⟩

/-- Witness for C7 at SEARCH("abcdef", "cd"): position 2, status OK. -/
theorem claim_C7_witness :
    process_string .search "abcdef".data "cd".data =
      (.position (Int.ofNat 2), .ok) :=
  ((claim_C7_search "abcdef".data "cd".data (by decide) (by decide)
      (by decide) (by decide)).1 2).2 ⟨by decide, by decide⟩

/-!
## Slot allocation and request-id assignment
-/

/-- A found free-slot index points at a FREE slot and every smaller
index points at a non-FREE slot (the scan is ascending). -/
theorem find_free_slot_spec :
    ∀ (l : List MessageSlot) (i : Nat), find_free_slot l = some i →
      (∃ s, l[i]? = some s ∧ s.state = .free) ∧
      (∀ j < i, ∀ s, l[j]? = some s → s.state ≠ .free) := by
  intro l
  induction l with
  | nil => intro i hi; exact absurd hi (by simp [find_free_slot])
  | cons s rest ih =>
    intro i hi
    unfold find_free_slot at hi
    by_cases hs : s.state = .free
    · rw [if_pos hs] at hi
      obtain rfl : 0 = i := Option.some.inj hi
      exact ⟨⟨s, by simp, hs⟩, fun j hj => absurd hj (by omega)⟩
    · rw [if_neg hs] at hi
      obtain ⟨k, hk, rfl⟩ := Option.map_eq_some'.1 hi
      obtain ⟨⟨s', hs', hfree⟩, hleast⟩ := ih k hk
      refine ⟨⟨s', by simpa using hs', hfree⟩, ?_⟩
      intro j hj t ht
      cases j with
      | zero =>
        obtain rfl : s = t := by simpa using ht
        exact hs
      | succ m =>
        exact hleast m (by omega) t (by simpa using ht)

/-- find_free_slot fails exactly when no slot is FREE. -/
theorem find_free_slot_none_iff (l : List MessageSlot) :
    find_free_slot l = none ↔ ∀ s ∈ l, s.state ≠ .free := by
  induction l with
  | nil => simp [find_free_slot]
  | cons s rest ih =>
    unfold find_free_slot
    by_cases hs : s.state = .free
    · simp [hs]
    · simp [hs, ih]

/-- C2: on submission the slot array is scanned in ascending index
order and the first FREE slot is assigned together with the current
next_request_id; if no slot is FREE the submission fails with the
no-free-slots error (surfaced to the caller as the generic -1 return)
and the shared region is left unmodified. -/
theorem claim_C2_slot_allocation (st : SharedMemoryLayout) (pid : Int)
    (cmd : ipc_cmd_t) (p : RequestPayload) :
    (∀ i, find_free_slot st.slots = some i →
      (∃ s, st.slots[i]? = some s ∧ s.state = .free) ∧
      (∀ j < i, ∀ s, st.slots[j]? = some s → s.state ≠ .free) ∧
      (submit_request st pid cmd p).1 = .ok i st.next_request_id) ∧
    ((∀ s ∈ st.slots, s.state ≠ .free) →
      submit_request st pid cmd p = (.noFreeSlots, st)) := by
  constructor
  · intro i hf
    obtain ⟨hfree, hleast⟩ := find_free_slot_spec st.slots i hf
    exact ⟨hfree, hleast, by simp [submit_request, hf]⟩
  · intro hall
    have hnone : find_free_slot st.slots = none :=
      (find_free_slot_none_iff st.slots).2 hall
    simp [submit_request, hnone]

/-- Witness for C2: on the freshly initialized region the first
submission takes slot 0 with request id 1. -/
theorem claim_C2_witness :
    (submit_request (init_state 3) 1 .add (.math ⟨0, 0⟩)).1 = .ok 0 1 :=
  ((claim_C2_slot_allocation (init_state 3) 1 .add (.math ⟨0, 0⟩)).1 0
    (by decide)).2.2

/-- Evolution of the header's next_request_id under one step: it
increments exactly when the step is a submission that found a free slot
(and was therefore assigned an id), and is untouched otherwise. -/
theorem step_next_request_id (st : SharedMemoryLayout) (op : Op) :
    (step st op).next_request_id =
      if (submit_assigned_id st op).isSome then st.next_request_id + 1
      else st.next_request_id := by
  cases op with
  | submit pid cmd p =>
    simp only [step, submit_request, submit_assigned_id]
    rcases Option.eq_none_or_eq_some (find_free_slot st.slots) with hf | ⟨j, hf⟩ <;>
      simp [hf]
  | dispatch => simp [step, submit_assigned_id]
  | work i => simp [step, work_slot, submit_assigned_id]
  | poll id => simp [step, ipc_get_result, submit_assigned_id]

/-- The ids assigned over a run starting at any state form the
contiguous block of naturals starting at the state's next_request_id. -/
theorem assigned_ids_range :
    ∀ (ops : List Op) (st : SharedMemoryLayout),
      ∃ k, assigned_ids st ops = List.range' st.next_request_id k ∧
        (run st ops).next_request_id = st.next_request_id + k := by
  intro ops
  induction ops with
  | nil => intro st; exact ⟨0, rfl, by simp [run]⟩
  | cons op ops ih =>
    intro st
    obtain ⟨k, hids, hnext⟩ := ih (step st op)
    cases hop : submit_assigned_id st op with
    | some id =>
      have hid : id = st.next_request_id := by
        cases op with
        | submit pid cmd p =>
          simp only [submit_assigned_id] at hop
          cases hf : find_free_slot st.slots with
          | some j => rw [hf] at hop; exact (Option.some.inj hop).symm
          | none => rw [hf] at hop; exact absurd hop (by simp)
        | dispatch => exact absurd hop (by simp [submit_assigned_id])
        | work i => exact absurd hop (by simp [submit_assigned_id])
        | poll id2 => exact absurd hop (by simp [submit_assigned_id])
      have hstep : (step st op).next_request_id = st.next_request_id + 1 := by
        rw [step_next_request_id, if_pos (by simp [hop])]
      refine ⟨k + 1, ?_, ?_⟩
      · show (submit_assigned_id st op).toList ++ assigned_ids (step st op) ops = _
        rw [hop, hids, hstep, List.range'_succ]
        simp [hid]
      · show (run (step st op) ops).next_request_id = _
        omega
    | none =>
      have hstep : (step st op).next_request_id = st.next_request_id := by
        rw [step_next_request_id, if_neg (by simp [hop])]
      refine ⟨k, ?_, ?_⟩
      · show (submit_assigned_id st op).toList ++ assigned_ids (step st op) ops = _
        rw [hop, hids, hstep]
        simp
      · show (run (step st op) ops).next_request_id = _
        omega

/-- C4: within one server generation (starting from the server's
initialization next_request_id = 1), the ids assigned to submitted
requests are strictly increasing in submission order, pairwise distinct
(never reused), id 0 is never assigned, and in fact they form the
contiguous block 1, 2, ..., k. -/
theorem claim_C4_request_ids (g : Nat) (ops : List Op) :
    List.Chain' (· < ·) (assigned_ids (init_state g) ops) ∧
    (assigned_ids (init_state g) ops).Nodup ∧
    0 ∉ assigned_ids (init_state g) ops ∧
    ∃ k, assigned_ids (init_state g) ops = List.range' 1 k := by
  obtain ⟨k, hids, -⟩ := assigned_ids_range ops (init_state g)
  have hinit : (init_state g).next_request_id = 1 := rfl
  rw [hinit] at hids
  rw [hids]
  refine ⟨(List.pairwise_lt_range' 1 k).chain', List.nodup_range' 1 k, ?_, k, rfl⟩
  intro hmem
  rw [List.mem_range'_1] at hmem
  omega

/-!
## Poll round-trip (claim C1 machinery)
-/

/-- Every element of an updated slot array is either an original
element or the image of an original element under the update. -/
theorem mem_update_slot {f : MessageSlot → MessageSlot} :
    ∀ {l : List MessageSlot} {i : Nat} {s' : MessageSlot},
      s' ∈ update_slot l i f → s' ∈ l ∨ ∃ s, s ∈ l ∧ s' = f s := by
  intro l
  induction l with
  | nil => intro i s' h; simp [update_slot] at h
  | cons s rest ih =>
    intro i s' h
    cases i with
    | zero =>
      simp only [update_slot] at h
      rcases List.mem_cons.1 h with rfl | hmem
      · exact Or.inr ⟨s, List.mem_cons_self _ _, rfl⟩
      · exact Or.inl (List.mem_cons_of_mem _ hmem)
    | succ n =>
      simp only [update_slot] at h
      rcases List.mem_cons.1 h with rfl | hmem
      · exact Or.inl (List.mem_cons_self _ _)
      · rcases ih hmem with h1 | ⟨t, ht, rfl⟩
        · exact Or.inl (List.mem_cons_of_mem _ h1)
        · exact Or.inr ⟨t, List.mem_cons_of_mem _ ht, rfl⟩

/-- Every element of the slot array after a poll is either an original
element or an original element transitioned to FREE. -/
theorem poll_slots_mem {id : Nat} :
    ∀ {l : List MessageSlot} {s' : MessageSlot},
      s' ∈ (poll_slots id l).2 →
        s' ∈ l ∨ ∃ s, s ∈ l ∧ s' = { s with state := ipc_slot_state_t.free } := by
  intro l
  induction l with
  | nil => intro s' h; simp [poll_slots] at h
  | cons s rest ih =>
    intro s' h
    unfold poll_slots at h
    by_cases hid : s.request_id = id
    · rw [if_pos hid] at h
      by_cases hst : s.state = .responseReady
      · rw [if_pos hst] at h
        rcases List.mem_cons.1 h with rfl | hmem
        · exact Or.inr ⟨s, List.mem_cons_self _ _, rfl⟩
        · exact Or.inl (List.mem_cons_of_mem _ hmem)
      · rw [if_neg hst] at h
        rcases List.mem_cons.1 h with rfl | hmem
        · exact Or.inl (List.mem_cons_self _ _)
        · exact Or.inl (List.mem_cons_of_mem _ hmem)
    · rw [if_neg hid] at h
      rcases List.mem_cons.1 h with rfl | hmem
      · exact Or.inl (List.mem_cons_self _ _)
      · rcases ih hmem with h1 | ⟨t, ht, rfl⟩
        · exact Or.inl (List.mem_cons_of_mem _ h1)
        · exact Or.inr ⟨t, List.mem_cons_of_mem _ ht, rfl⟩

/-- A READY poll result comes from a slot of the array that carries the
polled id in state RESPONSE_READY with the returned response/status. -/
theorem poll_ready_mem {id : Nat} :
    ∀ {l : List MessageSlot} {r : ResponsePayload} {stt : ipc_status_t},
      (poll_slots id l).1 = .ready r stt →
        ∃ s, s ∈ l ∧ s.request_id = id ∧ s.state = .responseReady ∧
          s.response = r ∧ s.status = stt := by
  intro l
  induction l with
  | nil => intro r stt h; exact absurd h (by simp [poll_slots])
  | cons s rest ih =>
    intro r stt h
    unfold poll_slots at h
    by_cases hid : s.request_id = id
    · rw [if_pos hid] at h
      by_cases hst : s.state = .responseReady
      · rw [if_pos hst] at h
        obtain ⟨hr, hstt⟩ := PollResult.ready.inj h
        exact ⟨s, List.mem_cons_self _ _, hid, hst, hr, hstt⟩
      · rw [if_neg hst] at h
        exact absurd h (by simp)
    · rw [if_neg hid] at h
      obtain ⟨t, ht, h2, h3, h4, h5⟩ := ih h
      exact ⟨t, List.mem_cons_of_mem _ ht, h2, h3, h4, h5⟩

/-- The worker's write-back preserves the slot's request id. -/
theorem work_slot_content_request_id (s : MessageSlot) :
    (work_slot_content s).request_id = s.request_id := by
  cases hc : s.command <;> simp [work_slot_content, hc]

/-- The well-formedness invariant (all slot ids below next_request_id)
is preserved by every atomic step. -/
theorem slots_wf_step {st : SharedMemoryLayout} (hwf : slots_wf st) (op : Op) :
    slots_wf (step st op) := by
  cases op with
  | submit pid cmd p =>
    rcases Option.eq_none_or_eq_some (find_free_slot st.slots) with hf | ⟨j, hf⟩
    · show slots_wf (submit_request st pid cmd p).2
      simp only [submit_request, hf]
      exact hwf
    · show slots_wf (submit_request st pid cmd p).2
      simp only [submit_request, hf]
      intro s' hs'
      simp only at hs' ⊢
      rcases mem_update_slot hs' with hmem | ⟨t, ht, rfl⟩
      · have := hwf s' hmem
        omega
      · show st.next_request_id < st.next_request_id + 1
        omega
  | dispatch =>
    intro s' hs'
    simp only [step, dispatch_slots] at hs'
    obtain ⟨t, ht, rfl⟩ := List.mem_map.1 hs'
    by_cases hp : t.state = .requestPending
    · rw [if_pos hp]
      exact hwf t ht
    · rw [if_neg hp]
      exact hwf t ht
  | work i =>
    intro s' hs'
    simp only [step, work_slot] at hs'
    rcases mem_update_slot hs' with hmem | ⟨t, ht, rfl⟩
    · exact hwf s' hmem
    · by_cases hp : t.state = .processing
      · rw [if_pos hp, work_slot_content_request_id]
        exact hwf t ht
      · rw [if_neg hp]
        exact hwf t ht
  | poll id =>
    intro s' hs'
    simp only [step, ipc_get_result] at hs'
    rcases poll_slots_mem hs' with hmem | ⟨t, ht, rfl⟩
    · exact hwf s' hmem
    · exact hwf t ht

/-- Once an id is consumed (all slots carrying it are FREE and it is
below next_request_id), it stays consumed under every atomic step: a
new submission is assigned a strictly larger id, the dispatcher and the
workers only touch PENDING/PROCESSING slots, and polls only free
slots. -/
theorem id_consumed_step {st : SharedMemoryLayout} {id : Nat}
    (hc : id_consumed st id) (op : Op) :
    id_consumed (step st op) id := by
  obtain ⟨hlt, hfree⟩ := hc
  cases op with
  | submit pid cmd p =>
    rcases Option.eq_none_or_eq_some (find_free_slot st.slots) with hf | ⟨j, hf⟩
    · show id_consumed (submit_request st pid cmd p).2 id
      simp only [submit_request, hf]
      exact ⟨hlt, hfree⟩
    · show id_consumed (submit_request st pid cmd p).2 id
      simp only [submit_request, hf]
      refine ⟨show id < st.next_request_id + 1 by omega, ?_⟩
      intro s' hs' hid
      simp only at hs'
      rcases mem_update_slot hs' with hmem | ⟨t, ht, rfl⟩
      · exact hfree s' hmem hid
      · exfalso
        have hh : st.next_request_id = id := hid
        omega
  | dispatch =>
    refine ⟨hlt, ?_⟩
    intro s' hs' hid
    simp only [step, dispatch_slots] at hs'
    obtain ⟨t, ht, rfl⟩ := List.mem_map.1 hs'
    by_cases hp : t.state = .requestPending
    · exfalso
      rw [if_pos hp] at hid
      have hid' : t.request_id = id := hid
      have hfr := hfree t ht hid'
      rw [hp] at hfr
      exact absurd hfr (by decide)
    · rw [if_neg hp] at hid ⊢
      exact hfree t ht hid
  | work i =>
    refine ⟨hlt, ?_⟩
    intro s' hs' hid
    simp only [step, work_slot] at hs'
    rcases mem_update_slot hs' with hmem | ⟨t, ht, rfl⟩
    · exact hfree s' hmem hid
    · by_cases hp : t.state = .processing
      · exfalso
        rw [if_pos hp] at hid
        rw [work_slot_content_request_id] at hid
        have hfr := hfree t ht hid
        rw [hp] at hfr
        exact absurd hfr (by decide)
      · rw [if_neg hp] at hid ⊢
        exact hfree t ht hid
  | poll id2 =>
    refine ⟨hlt, ?_⟩
    intro s' hs' hid
    simp only [step, ipc_get_result] at hs'
    rcases poll_slots_mem hs' with hmem | ⟨t, ht, rfl⟩
    · exact hfree s' hmem hid
    · rfl

/-- Polling a consumed id never reports READY again: the scan either
finds the stale id in a FREE slot (NOT_READY) or no slot at all
(not-found). -/
theorem poll_not_ready_of_consumed {st : SharedMemoryLayout} {id : Nat}
    (hc : id_consumed st id) :
    ∀ r s, (ipc_get_result st id).1 ≠ .ready r s := by
  obtain ⟨-, hfree⟩ := hc
  suffices h : ∀ l, (∀ s ∈ l, s.request_id = id → s.state = .free) →
      ∀ r s, (poll_slots id l).1 ≠ .ready r s by
    intro r s
    exact h st.slots hfree r s
  intro l
  induction l with
  | nil =>
    intro _ r s
    simp [poll_slots]
  | cons t rest ih =>
    intro hfr r s
    unfold poll_slots
    by_cases hid : t.request_id = id
    · rw [if_pos hid]
      have hst : t.state = .free := hfr t (List.mem_cons_self _ _) hid
      rw [if_neg (by simp [hst])]
      simp
    · rw [if_neg hid]
      exact ih (fun u hu => hfr u (List.mem_cons_of_mem _ hu)) r s

/-- After the successful poll of an id held by (at most) one slot, that
id is consumed: the consuming poll transitions the carrying slot to
FREE. -/
theorem poll_ready_consumed {st : SharedMemoryLayout} {id : Nat}
    {r : ResponsePayload} {stt : ipc_status_t}
    (hwf : slots_wf st) (huniq : id_unique st.slots id)
    (hready : (ipc_get_result st id).1 = .ready r stt) :
    id_consumed ((ipc_get_result st id).2) id := by
  constructor
  · obtain ⟨s, hs, hsid, -⟩ := poll_ready_mem hready
    have := hwf s hs
    show id < st.next_request_id
    omega
  · suffices h : ∀ l, List.Pairwise
        (fun a b => ¬(a.request_id = id ∧ b.request_id = id)) l →
        (poll_slots id l).1 = .ready r stt →
        ∀ s' ∈ (poll_slots id l).2, s'.request_id = id → s'.state = .free by
      exact h st.slots huniq hready
    intro l
    induction l with
    | nil =>
      intro _ hrdy
      exact absurd hrdy (by simp [poll_slots])
    | cons t rest ih =>
      intro hpw hrdy s' hs' hid'
      obtain ⟨hhead, htail⟩ := List.pairwise_cons.1 hpw
      unfold poll_slots at hrdy hs'
      by_cases hid : t.request_id = id
      · rw [if_pos hid] at hrdy hs'
        by_cases hst : t.state = .responseReady
        · rw [if_pos hst] at hrdy hs'
          rcases List.mem_cons.1 hs' with rfl | hmem
          · rfl
          · exact absurd ⟨hid, hid'⟩ (hhead s' hmem)
        · rw [if_neg hst] at hrdy
          exact absurd hrdy (by simp)
      · rw [if_neg hid] at hrdy hs'
        rcases List.mem_cons.1 hs' with rfl | hmem
        · exact absurd hid' hid
        · exact ih htail hrdy s' hmem hid'

/-- Well-formedness and consumedness persist along any run. -/
theorem wf_consumed_run {id : Nat} :
    ∀ (ops : List Op) {st : SharedMemoryLayout},
      slots_wf st → id_consumed st id →
      slots_wf (run st ops) ∧ id_consumed (run st ops) id := by
  intro ops
  induction ops with
  | nil => intro st hwf hc; exact ⟨hwf, hc⟩
  | cons op ops ih =>
    intro st hwf hc
    exact ih (slots_wf_step hwf op) (id_consumed_step hc op)

/-- C1 fails as stated on the repeat-poll clause: after the successful
poll of request id 1 consumes the response, an immediate second poll
with the same id returns NOT_READY (return code 1) — because the freed
slot still carries the stale request_id — not the claimed not-found
error (-1). -/
theorem claim_C1_counterexample :
    (ipc_get_result demo_state 1).1 = .ready (.mathResult 12) .ok ∧
    (ipc_get_result (ipc_get_result demo_state 1).2 1).1 = .notReady ∧
    PollResult.notReady ≠ PollResult.notFound := by
  refine ⟨by decide, by decide, by decide⟩

/-- C1 (amended): for a request id held by at most one slot in a
well-formed state, at most one poll returns READY: after the successful
poll that consumed the response, no later poll of the same id — after
any further submissions, dispatches, worker completions and polls
within the same generation — returns READY again (it returns NOT_READY
while the freed slot still carries the stale id, and the not-found
error only once the slot has been reused by a later request). -/
theorem claim_C1_poll_roundtrip (st : SharedMemoryLayout) (id : Nat)
    (r : ResponsePayload) (stt : ipc_status_t)
    (hwf : slots_wf st) (huniq : id_unique st.slots id)
    (hready : (ipc_get_result st id).1 = .ready r stt) :
    ∀ (ops : List Op) (r' : ResponsePayload) (stt' : ipc_status_t),
      (ipc_get_result (run (ipc_get_result st id).2 ops) id).1 ≠ .ready r' stt' := by
  intro ops r' stt'
  have hwf' : slots_wf ((ipc_get_result st id).2) := slots_wf_step hwf (.poll id)
  have hc : id_consumed ((ipc_get_result st id).2) id :=
    poll_ready_consumed hwf huniq hready
  obtain ⟨-, hc'⟩ := wf_consumed_run ops hwf' hc
  exact poll_not_ready_of_consumed hc' r' stt'

/-- Witness for C1: in the concrete demo run, after the successful poll
of id 1, polling id 1 again does not return READY. -/
theorem claim_C1_witness :
    (ipc_get_result (run (ipc_get_result demo_state 1).2 []) 1).1 ≠
      .ready (.mathResult 12) .ok :=
  claim_C1_poll_roundtrip demo_state 1 (.mathResult 12) .ok
    (by decide) (by decide) (by decide) [] (.mathResult 12) .ok

/-!
## Blocking wait loop (claim C3 machinery)
-/

/-- Unfolding of one wait-loop iteration observing a semaphore wake. -/
theorem blocking_wait_from_wake {expected : Nat} {init_ok : Bool}
    {ev : Nat → WaitEvent} {k : Nat} {lockRc : Int} {slot : MessageSlot}
    (n : Nat) (hev : ev k = .wake lockRc slot) :
    blocking_wait_from expected init_ok ev (n + 1) k =
      if lockRc ≠ 0 then (lockRc, none)
      else if slot.request_id = expected ∧ slot.state = .responseReady then
        ((if slot.status = .ok then 0 else -1), some slot.response.math_result)
      else blocking_wait_from expected init_ok ev n (k + 1) := by
  conv_lhs => unfold blocking_wait_from
  rw [hev]

/-- Unfolding of one wait-loop iteration observing a timeout. -/
theorem blocking_wait_from_timeout {expected : Nat} {init_ok : Bool}
    {ev : Nat → WaitEvent} {k : Nat} {rc : Int}
    (n : Nat) (hev : ev k = .timeout rc) :
    blocking_wait_from expected init_ok ev (n + 1) k =
      if rc ≠ 0 then (rc, none)
      else blocking_wait_from expected init_ok ev n (k + 1) := by
  conv_lhs => unfold blocking_wait_from
  rw [hev]

/-- Unfolding of one wait-loop iteration observing a wait error. -/
theorem blocking_wait_from_err {expected : Nat} {init_ok : Bool}
    {ev : Nat → WaitEvent} {k : Nat}
    (n : Nat) (hev : ev k = .waitErr) :
    blocking_wait_from expected init_ok ev (n + 1) k = (-1, none) := by
  conv_lhs => unfold blocking_wait_from
  rw [hev]

/-- A successful return (code 0 with a written result) of the wait loop
can only come from an iteration that observed — under the mutex — a
slot carrying the expected request id in RESPONSE_READY with status OK,
and the written value is that slot's math_result. -/
theorem blocking_wait_success {expected : Nat} {init_ok : Bool}
    {ev : Nat → WaitEvent} :
    ∀ {budget k : Nat} {v : Int},
      blocking_wait_from expected init_ok ev budget k = (0, some v) →
      ∃ j, k ≤ j ∧ j < k + budget ∧ ∃ slot : MessageSlot,
        ev j = .wake 0 slot ∧ slot.request_id = expected ∧
        slot.state = .responseReady ∧ slot.status = .ok ∧
        v = slot.response.math_result := by
  intro budget
  induction budget with
  | zero =>
    intro k v h
    unfold blocking_wait_from at h
    exact absurd (congrArg Prod.snd h) (by simp)
  | succ n ih =>
    intro k v h
    cases hev : ev k with
    | wake lockRc slot =>
      rw [blocking_wait_from_wake n hev] at h
      by_cases hlock : lockRc ≠ 0
      · rw [if_pos hlock] at h
        exact absurd (congrArg Prod.snd h) (by simp)
      · rw [if_neg hlock] at h
        push_neg at hlock
        by_cases hmatch : slot.request_id = expected ∧ slot.state = .responseReady
        · rw [if_pos hmatch] at h
          by_cases hok : slot.status = .ok
          · rw [if_pos hok] at h
            have hv : some slot.response.math_result = some v := congrArg Prod.snd h
            refine ⟨k, le_refl k, by omega, slot, ?_, hmatch.1, hmatch.2, hok, ?_⟩
            · rw [hlock] at hev
              exact hev
            · exact (Option.some.inj hv).symm
          · rw [if_neg hok] at h
            have : (-1 : Int) = 0 := congrArg Prod.fst h
            exact absurd this (by decide)
        · rw [if_neg hmatch] at h
          obtain ⟨j, hj1, hj2, rest⟩ := ih h
          exact ⟨j, by omega, by omega, rest⟩
    | timeout rc =>
      rw [blocking_wait_from_timeout n hev] at h
      by_cases hrc : rc ≠ 0
      · rw [if_pos hrc] at h
        exact absurd (congrArg Prod.snd h) (by simp)
      · rw [if_neg hrc] at h
        obtain ⟨j, hj1, hj2, rest⟩ := ih h
        exact ⟨j, by omega, by omega, rest⟩
    | waitErr =>
      rw [blocking_wait_from_err n hev] at h
      exact absurd (congrArg Prod.snd h) (by simp)

/-- If every iteration in the budget observes only stale wakes or clean
timeouts, the loop exhausts its budget and forces the reconnect. -/
theorem blocking_wait_stale {expected : Nat} {init_ok : Bool}
    {ev : Nat → WaitEvent} :
    ∀ {budget k : Nat},
      (∀ j, k ≤ j → j < k + budget → (ev j).stale expected) →
      blocking_wait_from expected init_ok ev budget k =
        (reconnect_after_server_restart init_ok, none) := by
  intro budget
  induction budget with
  | zero => intro k _; rfl
  | succ n ih =>
    intro k hall
    have hk := hall k (le_refl k) (by omega)
    cases hev : ev k with
    | wake lockRc slot =>
      rw [hev] at hk
      obtain ⟨hlock, hnm⟩ := hk
      rw [blocking_wait_from_wake n hev, if_neg (by omega), if_neg hnm]
      exact ih fun j hj1 hj2 => hall j (by omega) (by omega)
    | timeout rc =>
      rw [hev] at hk
      have hrc : rc = 0 := hk
      rw [blocking_wait_from_timeout n hev, if_neg (by omega)]
      exact ih fun j hj1 hj2 => hall j (by omega) (by omega)
    | waitErr =>
      rw [hev] at hk
      exact hk.elim

/-- C3: a blocking math call returns success (0 with a result) only
when some iteration observed, under the mutex, the slot carrying
exactly the request id assigned at submission in state RESPONSE_READY —
a spuriously posted slot semaphore (stale wake) never makes it return
another request's response; and when all 16 iterations of the wait
budget are stale wakes or clean timeouts, it forces a reconnect and
returns RESTARTED (-2, with ipc_init succeeding). -/
theorem claim_C3_stale_wake_guard (st : SharedMemoryLayout) (pid : Int)
    (cmd : ipc_cmd_t) (a b : Int) (ev : Nat → WaitEvent) :
    (∀ v : Int, blocking_math st pid cmd a b true ev = (0, some v) →
      ∃ j < 16, ∃ slot : MessageSlot,
        ev j = .wake 0 slot ∧ slot.request_id = st.next_request_id ∧
        slot.state = .responseReady ∧ slot.status = .ok ∧
        v = slot.response.math_result) ∧
    ((find_free_slot st.slots).isSome →
      (∀ j < 16, (ev j).stale st.next_request_id) →
      blocking_math st pid cmd a b true ev = (-2, none)) := by
  constructor
  · intro v h
    unfold blocking_math at h
    rcases Option.eq_none_or_eq_some (find_free_slot st.slots) with hf | ⟨j0, hf⟩
    · simp only [submit_request, hf] at h
      exact absurd (congrArg Prod.snd h) (by simp)
    · simp only [submit_request, hf] at h
      obtain ⟨j, hj1, hj2, slot, hrest⟩ := blocking_wait_success h
      have hj16 : j < 16 := by
        simpa [kMaxSlotWaitTimeoutRetries] using hj2
      exact ⟨j, hj16, slot, hrest⟩
  · intro hfsome hall
    rcases Option.eq_none_or_eq_some (find_free_slot st.slots) with hf | ⟨j0, hf⟩
    · rw [hf] at hfsome
      exact absurd hfsome (by simp)
    · unfold blocking_math
      simp only [submit_request, hf]
      exact blocking_wait_stale fun j hj1 hj2 =>
        hall j (by simpa [kMaxSlotWaitTimeoutRetries] using hj2)

/-- Witness for C3: with a free slot available and every iteration
timing out cleanly, the blocking call returns RESTARTED (-2) with no
result written. -/
theorem claim_C3_witness :
    blocking_math (init_state 7) 1 .add 2 3 true (fun _ => .timeout 0) =
      (-2, none) :=
  (claim_C3_stale_wake_guard (init_state 7) 1 .add 2 3 (fun _ => .timeout 0)).2
    (by decide) (fun j _ => rfl)

end LinProj
